import Mathlib

/-
  Verification of the Verible SystemVerilog formatter core
  (verilog/formatting/formatter.cc) against its specification.

  The definitions below are a shallow embedding of the functions in
  formatter.cc.  External collaborators (lexer/parser, FitsOnLine,
  SearchLineWraps, the CST searches, Emit rendering details) are modelled
  as abstract inputs carried in environment records, exactly at the
  boundaries where formatter.cc calls them.
-/

namespace Verible

/-! ## Status model (absl::Status codes used by formatter.cc) -/

inductive StatusCode where
  | ok
  | invalidArgument
  | resourceExhausted
  | dataLoss
  | cancelled
deriving DecidableEq, Repr

structure Status where
  code : StatusCode
  msg : String
deriving DecidableEq, Repr

def okStatus : Status := ⟨.ok, ""⟩

/-! ## Token model (common/formatting/format_token.h as used by formatter.cc) -/

/-- SpacingOptions from common/formatting/format_token.h: the break decision
attached to the inter-token `before` record. -/
inductive SpacingOptions where
  | undecided
  | mustAppend
  | mustWrap
  | preserve
deriving DecidableEq, Repr

/-- Verilog token enums; formatter.cc only tests equality with
TK_EOL_COMMENT, so all other enums are folded into `tk n`. -/
inductive VTokenEnum where
  | TK_EOL_COMMENT
  | tk (n : Nat)
deriving DecidableEq, Repr

/-- Mutable inter-token data of a PreFormatToken (the `before` record). -/
structure InterTokenInfo where
  break_decision : SpacingOptions
  preserved_space_start : Nat
deriving DecidableEq, Repr

/-- PreFormatToken: a lexer token (enum kind and byte range
[left, right) into the base text) plus its `before` record. -/
structure PreFormatToken where
  token_enum : VTokenEnum
  left : Nat
  right : Nat
  before : InterTokenInfo
deriving DecidableEq, Repr

instance : Inhabited PreFormatToken := ⟨⟨.tk 0, 0, 0, ⟨.undecided, 0⟩⟩⟩

/-- Token at index `i` (default token out of range). -/
def nthTok (toks : List PreFormatToken) (i : Nat) : PreFormatToken :=
  toks.getD i default

/-! ## FindFormatTokensInByteOffsetRange and
PreserveSpacesOnDisabledTokenRanges (formatter.cc) -/

/-- First index `i ≥ start` whose token satisfies `p`; `toks.length` if none.
This is the first-match semantics of std::lower_bound / std::upper_bound on
a range partitioned by `p` (the token stream is monotone in byte offsets). -/
def findIdxFrom (p : PreFormatToken → Bool) (toks : List PreFormatToken)
    (start : Nat) : Nat :=
  start + List.findIdx p (toks.drop start)

/-- FindFormatTokensInByteOffsetRange: binary searches for the sub-range of
tokens `[b, e)` with `range.1 ≤ token.left` (lower_bound on
`t.left < position`) and `token.right ≤ range.2` (upper_bound on
`position < t.right`), starting the search at `start`. -/
def FindFormatTokensInByteOffsetRange (toks : List PreFormatToken)
    (start : Nat) (range : Nat × Nat) : Nat × Nat :=
  let b := findIdxFrom (fun t => decide (range.1 ≤ t.left)) toks start
  let e := findIdxFrom (fun t => decide (range.2 < t.right)) toks b
  (b, e)

/-- Apply `f i t` to every token with its index, indices starting at `k`. -/
def mapIdxFrom (f : Nat → PreFormatToken → PreFormatToken) :
    Nat → List PreFormatToken → List PreFormatToken
  | _, [] => []
  | k, t :: ts => f k t :: mapIdxFrom f (k + 1) ts

/-- The marking loop of PreserveSpacesOnDisabledTokenRanges: every token in
`[b, e)` gets `before.break_decision := Preserve`. -/
def markPreserve (toks : List PreFormatToken) (b e : Nat) :
    List PreFormatToken :=
  mapIdxFrom
    (fun i t =>
      if b ≤ i ∧ i < e then
        { t with before := { t.before with break_decision := .preserve } }
      else t)
    0 toks

/-- The kludge increment: `++begin_disable->before.preserved_space_start`. -/
def bumpPS (toks : List PreFormatToken) (b : Nat) : List PreFormatToken :=
  mapIdxFrom
    (fun i t =>
      if i = b then
        { t with before :=
          { t.before with
            preserved_space_start := t.before.preserved_space_start + 1 } }
      else t)
    0 toks

/-- One iteration of the loop body of PreserveSpacesOnDisabledTokenRanges:
find the token range, mark it Preserve, and when the range is nonempty, not
at the very front, and immediately preceded by an EOL (slash-slash style)
comment,
advance the first token's preserved_space_start past the trailing newline.
Returns the updated tokens and the next search start (`saved_iter`). -/
def processRange (toks : List PreFormatToken) (start : Nat)
    (range : Nat × Nat) : List PreFormatToken × Nat :=
  let be := FindFormatTokensInByteOffsetRange toks start range
  let b := be.1
  let e := be.2
  let marked := markPreserve toks b e
  let final :=
    if b ≠ 0 ∧ b ≠ e ∧ (nthTok marked (b - 1)).token_enum = .TK_EOL_COMMENT
    then bumpPS marked b
    else marked
  (final, e)

/-- The loop of PreserveSpacesOnDisabledTokenRanges, with the search start
(`saved_iter`) threaded through the iterations. -/
def preserveFrom (toks : List PreFormatToken) (start : Nat) :
    List (Nat × Nat) → List PreFormatToken
  | [] => toks
  | r :: rest =>
    let pr := processRange toks start r
    preserveFrom pr.1 pr.2 rest

/-- PreserveSpacesOnDisabledTokenRanges (formatter.cc): marks the tokens of
every disabled byte range as preserving original spacing. -/
def PreserveSpacesOnDisabledTokenRanges (toks : List PreFormatToken)
    (disabled_ranges : List (Nat × Nat)) : List PreFormatToken :=
  preserveFrom toks 0 disabled_ranges

/-! ## ByteOffsetRange (formatter.cc): syntactic format-disabling regions -/

/-- ByteOffsetRange (formatter.cc): converts a nonempty substring spanning
byte offsets `[beginOfs, endOfs)` of the base text into the disabled
interval.  The source adds one to the lower bound, with the comment that
formatting can still occur on the space before the start of the disabled
range. -/
def ByteOffsetRange (beginOfs endOfs : Nat) : Nat × Nat :=
  (beginOfs + 1, endOfs)

/-- The loop in Formatter::Format over FindAllModuleDeclarations: when
`format_module_port_declarations` is false, every module's port declaration
list span (`StringSpanOfSymbol(*ports)`, given here as byte-offset pairs
computed by the external CST search) is added through ByteOffsetRange.
When the style flag is true, no such region is added. -/
def modulePortDisabledRanges (format_module_port_declarations : Bool)
    (portSpans : List (Nat × Nat)) : List (Nat × Nat) :=
  if format_module_port_declarations then []
  else portSpans.map (fun s => ByteOffsetRange s.1 s.2)

/-! ## Token partition tree and the expansion pass (formatter.cc) -/

/-- PartitionPolicyEnum (common/formatting/unwrapped_line.h), the closed set
of layout policies dispatched on by DeterminePartitionExpansion. -/
inductive PartitionPolicyEnum where
  | kUninitialized
  | kAlwaysExpand
  | kFitOnLineElseExpand
  | kAppendFittingSubPartitions
  | kInline
deriving DecidableEq, Repr

/-- An UnwrappedLine as consumed by the expansion pass.  `fitsOnLine` is the
result of the external `verible::FitsOnLine(uwline, style).fits` call for
this line under the ambient style; `isEmptyLine` is `IsEmpty()`;
`lineId` identifies the token range for output purposes. -/
structure UnwrappedLineM where
  policy : PartitionPolicyEnum
  fitsOnLine : Bool
  isEmptyLine : Bool
  lineId : Nat
deriving DecidableEq, Repr

/-- TokenPartitionTree: rose tree of unwrapped lines. -/
inductive PTree where
  | node (uw : UnwrappedLineM) (children : List PTree)

/-- A node of the ExpandableTreeView: the unwrapped line plus the view's
expanded bit (TreeViewNodeInfo). -/
structure ViewValue where
  uw : UnwrappedLineM
  expanded : Bool
deriving DecidableEq, Repr

/-- The ExpandableTreeView over a TokenPartitionTree. -/
inductive ViewTree where
  | node (v : ViewValue) (children : List ViewTree)

def ViewTree.rootValue : ViewTree → ViewValue
  | .node v _ => v

def ViewTree.rootExpanded : ViewTree → Bool
  | .node v _ => v.expanded

def ViewTree.childrenOf : ViewTree → List ViewTree
  | .node _ cs => cs

mutual
/-- Initialize a tree view that treats partitions as fully-expanded
(the construction at the top of MakeUnwrappedLinesWorklist; formatter.cc
states this initial view). -/
def mkView : PTree → ViewTree
  | .node uw cs => .node ⟨uw, true⟩ (mkViewList cs)

def mkViewList : List PTree → List ViewTree
  | [] => []
  | c :: cs => mkView c :: mkViewList cs
end

/-- DeterminePartitionExpansion (formatter.cc), the per-node decision, given
the node's current view bit `cur`, its unwrapped line, and its already
processed (post-order) children: a childless node is unexpanded; a node with
an expanded child is expanded; otherwise kAlwaysExpand expands when there is
more than one child (and leaves the view bit alone otherwise), while
kAppendFittingSubPartitions and kFitOnLineElseExpand unexpand exactly when
the line fits; all remaining policies leave the view bit alone. -/
def DeterminePartitionExpansion (cur : Bool) (uw : UnwrappedLineM)
    (childResults : List ViewTree) : Bool :=
  if childResults.isEmpty then false
  else if childResults.any ViewTree.rootExpanded then true
  else
    match uw.policy with
    | .kAlwaysExpand => if childResults.length > 1 then true else cur
    | .kAppendFittingSubPartitions => !uw.fitsOnLine
    | .kFitOnLineElseExpand => !uw.fitsOnLine
    | _ => cur

mutual
/-- The ApplyPostOrder pass of MakeUnwrappedLinesWorklist: children are
processed first, then DeterminePartitionExpansion runs on the node. -/
def applyExpansion : ViewTree → ViewTree
  | .node v cs =>
    let cs2 := applyExpansionList cs
    .node ⟨v.uw, DeterminePartitionExpansion v.expanded v.uw cs2⟩ cs2

def applyExpansionList : List ViewTree → List ViewTree
  | [] => []
  | c :: cs => applyExpansion c :: applyExpansionList cs
end

mutual
/-- Modelled from the spec: the iteration order of ExpandableTreeView
(common/util/expandable_tree_view.h, not part of the sources here).  The
worklist is the pre-order frontier in which a node is yielded iff it is
unexpanded (or childless) and its ancestors are expanded. -/
def frontier : ViewTree → List UnwrappedLineM
  | .node v cs =>
    if v.expanded = false ∨ cs.isEmpty then [v.uw]
    else frontierList cs

def frontierList : List ViewTree → List UnwrappedLineM
  | [] => []
  | c :: cs => frontier c ++ frontierList cs
end

/-- The trailing-blank-line removal loop of MakeUnwrappedLinesWorklist:
pop the back while it IsEmpty. -/
def dropTrailingEmpty (lines : List UnwrappedLineM) : List UnwrappedLineM :=
  (lines.reverse.dropWhile (fun uw => uw.isEmptyLine)).reverse

/-- MakeUnwrappedLinesWorklist (formatter.cc): run the post-order expansion
pass over the fully-expanded view, collect the resulting frontier, and
remove trailing blank lines.  (FitsOnLine's dependence on the style is
already folded into each line's `fitsOnLine` field.) -/
def MakeUnwrappedLinesWorklist (format_tokens_partitions : PTree) :
    List UnwrappedLineM :=
  dropTrailingEmpty (frontier (applyExpansion (mkView format_tokens_partitions)))

/-! ## ExecutionControl and diagnostics (formatter.h / formatter.cc) -/

/-- Target of a diagnostic write: the caller-supplied stream when one was
given, the process-wide standard output otherwise. -/
inductive StreamTarget where
  | stdout
  | caller (id : Nat)
deriving DecidableEq, Repr

/-- ExecutionControl.  `stream` is the caller-supplied diagnostic stream
pointer (`none` models nullptr).  `any_stop` is Modelled from the spec:
the spec lists `any_stop` among the execution-control members ("when any
diagnostic is requested with any_stop=true"); the AnyStop() definition
itself lives in formatter.h, which is not among these sources. -/
structure ExecutionControl where
  max_search_states : Nat
  show_token_partition_tree : Bool
  show_largest_token_partitions : Nat
  show_equally_optimal_wrappings : Bool
  stream : Option Nat
  any_stop : Bool
deriving DecidableEq, Repr

/-- ExecutionControl::Stream (formatter.cc): the caller's stream when the
pointer is non-null, std::cout otherwise. -/
def ExecutionControl.Stream (control : ExecutionControl) : StreamTarget :=
  match control.stream with
  | some id => .caller id
  | none => .stdout

/-- The diagnostic messages Formatter::Format can print. -/
inductive DiagMsg where
  | treeDump
  | largestPartitions
  | equallyOptimalWrappings (lineId : Nat)
deriving DecidableEq, Repr

/-- FormattedExcerpt: the output of SearchLineWraps for one unwrapped line.
`completed` is CompletedFormatting(); `content` abstracts the rendered
line. -/
structure FormattedExcerpt where
  completed : Bool
  content : Nat
deriving DecidableEq, Repr

/-- The debugging block at the top of Formatter::Format: the token
partition tree dump and the largest-partition report, each printed to
control.Stream() when requested. -/
def diagnosticWrites (control : ExecutionControl) :
    List (StreamTarget × DiagMsg) :=
  (if control.show_token_partition_tree = true
   then [(control.Stream, DiagMsg.treeDump)] else []) ++
  (if control.show_largest_token_partitions ≠ 0
   then [(control.Stream, DiagMsg.largestPartitions)] else [])

/-- The DisplayEquallyOptimalWrappings calls inside the search loop of
Formatter::Format: one write per unwrapped line whose search returned more
than one optimal solution, when requested. -/
def equallyOptimalWrites (control : ExecutionControl)
    (search : UnwrappedLineM → FormattedExcerpt × List FormattedExcerpt)
    (lines : List UnwrappedLineM) : List (StreamTarget × DiagMsg) :=
  lines.filterMap
    (fun uw =>
      if control.show_equally_optimal_wrappings = true ∧ (search uw).2 ≠ []
      then some (control.Stream, DiagMsg.equallyOptimalWrappings uw.lineId)
      else none)

/-! ## Formatter::Format (formatter.cc)

The stages of Formatter::Format that precede the diagnostic block
(annotation, comment-directive ranges, PreserveSpacesOnDisabledTokenRanges,
TreeUnwrapper::Unwrap, the kAppendFittingSubPartitions reshape) call
external components and produce the partition tree; the tree is therefore
an input here.  SearchLineWraps is external: `search` returns its nonempty
solution vector as front plus rest. -/

/-- The formatted lines produced by the search loop of Formatter::Format:
one excerpt per worklist line, always the front (first) optimal solution.
With any_stop the function returns before the loop runs. -/
def FormatterFormattedLines (tree : PTree)
    (search : UnwrappedLineM → FormattedExcerpt × List FormattedExcerpt)
    (control : ExecutionControl) : List FormattedExcerpt :=
  if control.any_stop = true then []
  else (MakeUnwrappedLinesWorklist tree).map (fun uw => (search uw).1)

/-- The status returned by Formatter::Format: OK on the any_stop early
return; otherwise ResourceExhausted when at least one line's chosen excerpt
did not complete wrap searching (partially_formatted_lines nonempty), OK
otherwise. -/
def FormatterStatus (tree : PTree)
    (search : UnwrappedLineM → FormattedExcerpt × List FormattedExcerpt)
    (control : ExecutionControl) : Status :=
  if control.any_stop = true then okStatus
  else if (FormatterFormattedLines tree search control).any
      (fun e => e.completed = false) then
    ⟨.resourceExhausted,
     "Some token partitions failed to complete within the search limit"⟩
  else okStatus

/-- All writes Formatter::Format makes to control.Stream(): the diagnostic
block always runs; the equally-optimal dumps only when the search loop
runs. -/
def FormatterDiagnostics (tree : PTree)
    (search : UnwrappedLineM → FormattedExcerpt × List FormattedExcerpt)
    (control : ExecutionControl) : List (StreamTarget × DiagMsg) :=
  diagnosticWrites control ++
  (if control.any_stop = true then []
   else equallyOptimalWrites control search (MakeUnwrappedLinesWorklist tree))

/-! ## VerifyFormatting and FormatVerilog (formatter.cc) -/

/-- Result of VerilogAnalyzer::AnalyzeAutomaticMode on some text (the
analyzer is an external collaborator): lex and parse status plus the error
message lists read by formatter.cc. -/
structure AnalyzeResult where
  lexOk : Bool
  parseOk : Bool
  linterTokenErrorMessages : List String
  tokenErrorMessages : List String
deriving DecidableEq, Repr

/-- DiffStatus of verilog::FormatEquivalent (verilog/analysis/
verilog_equivalence, external): formatter.cc only tests against
kEquivalent. -/
inductive DiffStatus where
  | kEquivalent
  | kDifferent
deriving DecidableEq, Repr

/-- VerifyFormatting (formatter.cc): given the re-analysis of the formatted
output and the FormatEquivalent comparison of the input against the
formatted output, produce the verification status.  When re-lex or re-parse
failed and there is at least one token error, fail with DataLoss carrying
the first token error; otherwise compare the filtered token streams and
fail with DataLoss on any difference; otherwise OK. -/
def VerifyFormatting (reanalysis : AnalyzeResult) (equiv : DiffStatus) :
    Status :=
  if (reanalysis.lexOk = false ∨ reanalysis.parseOk = false) ∧
      reanalysis.tokenErrorMessages ≠ [] then
    ⟨.dataLoss,
     "Error lex/parsing-ing formatted output.  Please file a bug.\nFirst error: "
       ++ reanalysis.tokenErrorMessages.headD ""⟩
  else if equiv ≠ .kEquivalent then
    ⟨.dataLoss,
     "Formatted output is lexically different from the input.    Please file a bug.  Details:\n"⟩
  else okStatus

/-- The external collaborators of FormatVerilog, at exactly the boundaries
where formatter.cc calls them: the analyzer (used both on the input text and
on the formatted output), the FormatEquivalent comparator, the partition
tree produced by unwrapping (after annotation, disabled ranges and the
reshape pass), the SearchLineWraps oracle, and the Emit rendering of the
formatted lines into the output buffer. -/
structure FormatterEnv where
  analyze : String → AnalyzeResult
  formatEquivalent : String → String → DiffStatus
  tree : PTree
  search : UnwrappedLineM → FormattedExcerpt × List FormattedExcerpt
  emit : List FormattedExcerpt → String

/-- Result of FormatVerilog: the returned status, the texts committed to
the caller's formatted_stream (in order), and the writes made to the
execution-control stream. -/
structure FormatResult where
  status : Status
  output : List String
  controlWrites : List (StreamTarget × DiagMsg)
deriving Repr

/-- FormatVerilog (formatter.cc): lex/parse the input (exit with
InvalidArgument on failure); run Formatter::Format; halt immediately on a
fatal (non-ResourceExhausted) error; in any diagnostic (any_stop) mode
return Cancelled without writing formatted text; otherwise render the
formatted text to a temporary buffer, verify it, return the verification
error without committing on failure, and only then commit the verified text
to the output stream and return the format status. -/
def FormatVerilog (env : FormatterEnv) (text : String)
    (control : ExecutionControl) : FormatResult :=
  let a := env.analyze text
  if a.lexOk = true ∧ a.parseOk = true then
    let format_status := FormatterStatus env.tree env.search control
    let diags := FormatterDiagnostics env.tree env.search control
    if format_status.code ≠ .ok ∧ format_status.code ≠ .resourceExhausted then
      ⟨format_status, [], diags⟩
    else if control.any_stop = true then
      ⟨⟨.cancelled, "Halting for diagnostic operation."⟩, [], diags⟩
    else
      let formatted_text :=
        env.emit (FormatterFormattedLines env.tree env.search control)
      let verify_status :=
        VerifyFormatting (env.analyze formatted_text)
          (env.formatEquivalent text formatted_text)
      if verify_status.code ≠ .ok then ⟨verify_status, [], diags⟩
      else ⟨format_status, [formatted_text], diags⟩
  else
    ⟨⟨.invalidArgument,
      String.join ((env.analyze text).linterTokenErrorMessages.map
        (fun m => m ++ "\n"))⟩,
     [], []⟩

/-! ## Concrete example environments for instantiating the theorems -/

/-- A healthy environment: everything lexes and parses, all searches
complete, the comparison is equivalent. -/
def exampleEnv : FormatterEnv where
  analyze := fun _ => ⟨true, true, [], []⟩
  formatEquivalent := fun _ _ => .kEquivalent
  tree := PTree.node ⟨.kUninitialized, true, false, 0⟩ []
  search := fun _ => (⟨true, 42⟩, [])
  emit := fun _ => "formatted output"

/-- An environment in which the wrap search hits its state budget on the
single worklist line (the front solution has completed = false). -/
def exhaustedEnv : FormatterEnv where
  analyze := fun _ => ⟨true, true, [], []⟩
  formatEquivalent := fun _ _ => .kEquivalent
  tree := PTree.node ⟨.kUninitialized, true, false, 0⟩ []
  search := fun _ => (⟨false, 7⟩, [])
  emit := fun _ => "best effort"

/-- An environment whose search returns a single optimal solution. -/
def envFirstOnly : FormatterEnv :=
  { exampleEnv with search := fun _ => (⟨true, 1⟩, []) }

/-- The same environment except that the search also returns a second,
equally optimal solution after the first. -/
def envFirstOfTwo : FormatterEnv :=
  { exampleEnv with search := fun _ => (⟨true, 1⟩, [⟨true, 2⟩]) }

/-- A plain execution control: no diagnostics, no stop, default stream. -/
def exampleControl : ExecutionControl :=
  ⟨100000, false, 0, false, none, false⟩

/-- A diagnostic-stop execution control with a caller-supplied stream. -/
def stopControl : ExecutionControl :=
  ⟨100000, true, 0, false, some 3, true⟩

/-! ## Helper lemmas: findIdxFrom -/

theorem findIdxFrom_ge (p : PreFormatToken → Bool) (toks : List PreFormatToken)
    (start : Nat) : start ≤ findIdxFrom p toks start :=
  Nat.le_add_right _ _

theorem findIdxFrom_le_length (p : PreFormatToken → Bool)
    (toks : List PreFormatToken) (start : Nat) (h : start ≤ toks.length) :
    findIdxFrom p toks start ≤ toks.length := by
  unfold findIdxFrom
  have h1 : List.findIdx p (toks.drop start) ≤ (toks.drop start).length :=
    List.findIdx_le_length p
  have h2 : (toks.drop start).length = toks.length - start :=
    List.length_drop start toks
  omega

theorem getD_out (l : List PreFormatToken) (j : Nat) (h : l.length ≤ j) :
    l.getD j default = default := by
  rw [List.getD_eq_getElem?_getD, List.getElem?_eq_none (by omega)]
  rfl

theorem getD_drop (toks : List PreFormatToken) (n j : Nat) :
    (toks.drop n).getD j default = toks.getD (n + j) default := by
  rw [List.getD_eq_getElem?_getD, List.getD_eq_getElem?_getD,
    List.getElem?_drop]

theorem findIdx_le_of_pred (p : PreFormatToken → Bool)
    (l : List PreFormatToken) (j : Nat) (hj : j < l.length)
    (hp : p (l.getD j default) = true) : l.findIdx p ≤ j := by
  induction l generalizing j with
  | nil => simp at hj
  | cons t ts ih =>
    cases j with
    | zero =>
      simp only [List.getD_cons_zero] at hp
      rw [List.findIdx_cons, hp]
      simp
    | succ j =>
      rw [List.findIdx_cons]
      cases hpt : p t with
      | true => simp
      | false =>
        simp only [cond_false]
        have := ih j (by simpa using hj)
          (by simpa [List.getD_cons_succ] using hp)
        omega

theorem lt_findIdx_of_pred_false (p : PreFormatToken → Bool)
    (l : List PreFormatToken) (i : Nat) (hi : i < l.length)
    (h : ∀ j, j ≤ i → p (l.getD j default) = false) : i < l.findIdx p := by
  induction l generalizing i with
  | nil => simp at hi
  | cons t ts ih =>
    have hpt : p t = false := by
      simpa [List.getD_cons_zero] using h 0 (Nat.zero_le i)
    rw [List.findIdx_cons, hpt]
    simp only [cond_false]
    cases i with
    | zero => omega
    | succ i =>
      have := ih i (by simpa using hi)
        (fun j hj => by simpa [List.getD_cons_succ] using h (j + 1) (by omega))
      omega

theorem findIdxFrom_le_of_pred (p : PreFormatToken → Bool)
    (toks : List PreFormatToken) (start i : Nat) (h1 : start ≤ i)
    (h2 : i < toks.length) (hp : p (nthTok toks i) = true) :
    findIdxFrom p toks start ≤ i := by
  unfold findIdxFrom
  have hlen : i - start < (toks.drop start).length := by
    rw [List.length_drop]; omega
  have hd : (toks.drop start).getD (i - start) default = nthTok toks i := by
    rw [getD_drop]
    unfold nthTok
    congr 1
    omega
  have := findIdx_le_of_pred p (toks.drop start) (i - start) hlen
    (by rw [hd]; exact hp)
  omega

theorem lt_findIdxFrom (p : PreFormatToken → Bool)
    (toks : List PreFormatToken) (start i : Nat) (h2 : i < toks.length)
    (h : ∀ j, start ≤ j → j ≤ i → p (nthTok toks j) = false) :
    i < findIdxFrom p toks start := by
  unfold findIdxFrom
  by_cases hsi : start ≤ i
  · have hlen : i - start < (toks.drop start).length := by
      rw [List.length_drop]; omega
    have := lt_findIdx_of_pred_false p (toks.drop start) (i - start) hlen
      (fun j hj => by
        rw [getD_drop]
        exact h (start + j) (by omega) (by omega))
    omega
  · omega

/-! ## Helper lemmas: mapIdxFrom, markPreserve, bumpPS -/

theorem mapIdxFrom_length (f : Nat → PreFormatToken → PreFormatToken)
    (k : Nat) (l : List PreFormatToken) :
    (mapIdxFrom f k l).length = l.length := by
  induction l generalizing k with
  | nil => rfl
  | cons t ts ih => simp [mapIdxFrom, ih]

theorem mapIdxFrom_getD (f : Nat → PreFormatToken → PreFormatToken)
    (k j : Nat) (l : List PreFormatToken) (hj : j < l.length) :
    (mapIdxFrom f k l).getD j default = f (k + j) (l.getD j default) := by
  induction l generalizing k j with
  | nil => simp at hj
  | cons t ts ih =>
    cases j with
    | zero => simp [mapIdxFrom]
    | succ j =>
      simp only [mapIdxFrom, List.getD_cons_succ]
      rw [ih (k + 1) j (by simpa using hj)]
      congr 1
      omega

theorem nthTok_mapIdxFrom (f : Nat → PreFormatToken → PreFormatToken)
    (l : List PreFormatToken) (i : Nat) :
    nthTok (mapIdxFrom f 0 l) i =
      if i < l.length then f i (nthTok l i) else default := by
  by_cases h : i < l.length
  · rw [if_pos h]
    unfold nthTok
    have := mapIdxFrom_getD f 0 i l h
    simpa using this
  · rw [if_neg h]
    unfold nthTok
    exact getD_out _ _ (by rw [mapIdxFrom_length]; omega)

theorem nthTok_default_of_ge (l : List PreFormatToken) (i : Nat)
    (h : l.length ≤ i) : nthTok l i = default :=
  getD_out l i h

theorem markPreserve_bd (toks : List PreFormatToken) (b e i : Nat)
    (h1 : i < toks.length) (h2 : b ≤ i) (h3 : i < e) :
    (nthTok (markPreserve toks b e) i).before.break_decision = .preserve := by
  unfold markPreserve
  rw [nthTok_mapIdxFrom, if_pos h1, if_pos ⟨h2, h3⟩]

theorem markPreserve_eq_of_not (toks : List PreFormatToken) (b e i : Nat)
    (h : ¬(b ≤ i ∧ i < e)) :
    nthTok (markPreserve toks b e) i = nthTok toks i := by
  unfold markPreserve
  rw [nthTok_mapIdxFrom]
  by_cases hl : i < toks.length
  · rw [if_pos hl, if_neg h]
  · rw [if_neg hl, nthTok_default_of_ge toks i (by omega)]

theorem markPreserve_enum (toks : List PreFormatToken) (b e i : Nat) :
    (nthTok (markPreserve toks b e) i).token_enum = (nthTok toks i).token_enum := by
  unfold markPreserve
  rw [nthTok_mapIdxFrom]
  by_cases hl : i < toks.length
  · rw [if_pos hl]
    split <;> rfl
  · rw [if_neg hl, nthTok_default_of_ge toks i (by omega)]

theorem markPreserve_left (toks : List PreFormatToken) (b e i : Nat) :
    (nthTok (markPreserve toks b e) i).left = (nthTok toks i).left := by
  unfold markPreserve
  rw [nthTok_mapIdxFrom]
  by_cases hl : i < toks.length
  · rw [if_pos hl]
    split <;> rfl
  · rw [if_neg hl, nthTok_default_of_ge toks i (by omega)]

theorem markPreserve_right (toks : List PreFormatToken) (b e i : Nat) :
    (nthTok (markPreserve toks b e) i).right = (nthTok toks i).right := by
  unfold markPreserve
  rw [nthTok_mapIdxFrom]
  by_cases hl : i < toks.length
  · rw [if_pos hl]
    split <;> rfl
  · rw [if_neg hl, nthTok_default_of_ge toks i (by omega)]

theorem markPreserve_ps (toks : List PreFormatToken) (b e i : Nat) :
    (nthTok (markPreserve toks b e) i).before.preserved_space_start =
      (nthTok toks i).before.preserved_space_start := by
  unfold markPreserve
  rw [nthTok_mapIdxFrom]
  by_cases hl : i < toks.length
  · rw [if_pos hl]
    split <;> rfl
  · rw [if_neg hl, nthTok_default_of_ge toks i (by omega)]

theorem bumpPS_eq_of_ne (toks : List PreFormatToken) (b i : Nat)
    (h : i ≠ b) : nthTok (bumpPS toks b) i = nthTok toks i := by
  unfold bumpPS
  rw [nthTok_mapIdxFrom]
  by_cases hl : i < toks.length
  · rw [if_pos hl, if_neg h]
  · rw [if_neg hl, nthTok_default_of_ge toks i (by omega)]

theorem bumpPS_bd (toks : List PreFormatToken) (b i : Nat) :
    (nthTok (bumpPS toks b) i).before.break_decision =
      (nthTok toks i).before.break_decision := by
  unfold bumpPS
  rw [nthTok_mapIdxFrom]
  by_cases hl : i < toks.length
  · rw [if_pos hl]
    split <;> rfl
  · rw [if_neg hl, nthTok_default_of_ge toks i (by omega)]

theorem bumpPS_ps_at (toks : List PreFormatToken) (b : Nat)
    (h : b < toks.length) :
    (nthTok (bumpPS toks b) b).before.preserved_space_start =
      (nthTok toks b).before.preserved_space_start + 1 := by
  unfold bumpPS
  rw [nthTok_mapIdxFrom, if_pos h, if_pos rfl]

/-! ## Helper lemmas: processRange and preserveFrom -/

theorem processRange_snd (toks : List PreFormatToken) (start : Nat)
    (r : Nat × Nat) :
    (processRange toks start r).2 =
      findIdxFrom (fun t => decide (r.2 < t.right)) toks
        (findIdxFrom (fun t => decide (r.1 ≤ t.left)) toks start) := rfl

theorem processRange_fst (toks : List PreFormatToken) (start : Nat)
    (r : Nat × Nat) :
    (processRange toks start r).1 =
      (if (findIdxFrom (fun t => decide (r.1 ≤ t.left)) toks start) ≠ 0 ∧
          (findIdxFrom (fun t => decide (r.1 ≤ t.left)) toks start) ≠
            (processRange toks start r).2 ∧
          (nthTok
            (markPreserve toks
              (findIdxFrom (fun t => decide (r.1 ≤ t.left)) toks start)
              (processRange toks start r).2)
            ((findIdxFrom (fun t => decide (r.1 ≤ t.left)) toks start) - 1)).token_enum
            = .TK_EOL_COMMENT
       then bumpPS
          (markPreserve toks
            (findIdxFrom (fun t => decide (r.1 ≤ t.left)) toks start)
            (processRange toks start r).2)
          (findIdxFrom (fun t => decide (r.1 ≤ t.left)) toks start)
       else markPreserve toks
          (findIdxFrom (fun t => decide (r.1 ≤ t.left)) toks start)
          (processRange toks start r).2) := rfl

theorem processRange_length (toks : List PreFormatToken) (start : Nat)
    (r : Nat × Nat) : (processRange toks start r).1.length = toks.length := by
  rw [processRange_fst]
  split
  · unfold bumpPS markPreserve
    rw [mapIdxFrom_length, mapIdxFrom_length]
  · unfold markPreserve
    rw [mapIdxFrom_length]

theorem processRange_snd_ge (toks : List PreFormatToken) (start : Nat)
    (r : Nat × Nat) : start ≤ (processRange toks start r).2 := by
  rw [processRange_snd]
  exact Nat.le_trans (findIdxFrom_ge _ _ _) (findIdxFrom_ge _ _ _)

theorem processRange_snd_le (toks : List PreFormatToken) (start : Nat)
    (r : Nat × Nat) (h : start ≤ toks.length) :
    (processRange toks start r).2 ≤ toks.length := by
  rw [processRange_snd]
  exact findIdxFrom_le_length _ _ _ (findIdxFrom_le_length _ _ _ h)

theorem processRange_nthTok_lt (toks : List PreFormatToken) (start i : Nat)
    (r : Nat × Nat) (h : i < start) :
    nthTok (processRange toks start r).1 i = nthTok toks i := by
  have hbi : ¬((findIdxFrom (fun t => decide (r.1 ≤ t.left)) toks start) ≤ i) := by
    have := findIdxFrom_ge (fun t => decide (r.1 ≤ t.left)) toks start
    omega
  rw [processRange_fst]
  split
  · rw [bumpPS_eq_of_ne _ _ _ (by omega), markPreserve_eq_of_not _ _ _ _ (by tauto)]
  · rw [markPreserve_eq_of_not _ _ _ _ (by tauto)]

theorem bumpPS_left (toks : List PreFormatToken) (b i : Nat) :
    (nthTok (bumpPS toks b) i).left = (nthTok toks i).left := by
  unfold bumpPS
  rw [nthTok_mapIdxFrom]
  by_cases hl : i < toks.length
  · rw [if_pos hl]
    split <;> rfl
  · rw [if_neg hl, nthTok_default_of_ge toks i (by omega)]

theorem bumpPS_right (toks : List PreFormatToken) (b i : Nat) :
    (nthTok (bumpPS toks b) i).right = (nthTok toks i).right := by
  unfold bumpPS
  rw [nthTok_mapIdxFrom]
  by_cases hl : i < toks.length
  · rw [if_pos hl]
    split <;> rfl
  · rw [if_neg hl, nthTok_default_of_ge toks i (by omega)]

theorem processRange_left (toks : List PreFormatToken) (start i : Nat)
    (r : Nat × Nat) :
    (nthTok (processRange toks start r).1 i).left = (nthTok toks i).left := by
  rw [processRange_fst]
  split
  · rw [bumpPS_left, markPreserve_left]
  · rw [markPreserve_left]

theorem processRange_right (toks : List PreFormatToken) (start i : Nat)
    (r : Nat × Nat) :
    (nthTok (processRange toks start r).1 i).right = (nthTok toks i).right := by
  rw [processRange_fst]
  split
  · rw [bumpPS_right, markPreserve_right]
  · rw [markPreserve_right]

theorem processRange_bd_marks (toks : List PreFormatToken) (start i : Nat)
    (r : Nat × Nat) (hil : i < toks.length)
    (hb : findIdxFrom (fun t => decide (r.1 ≤ t.left)) toks start ≤ i)
    (he : i < (processRange toks start r).2) :
    (nthTok (processRange toks start r).1 i).before.break_decision =
      .preserve := by
  rw [processRange_fst]
  split
  · rw [bumpPS_bd, markPreserve_bd _ _ _ _ hil hb he]
  · rw [markPreserve_bd _ _ _ _ hil hb he]

theorem preserveFrom_length (rs : List (Nat × Nat)) :
    ∀ (toks : List PreFormatToken) (start : Nat),
    (preserveFrom toks start rs).length = toks.length := by
  induction rs with
  | nil => intro toks start; rfl
  | cons r rest ih =>
    intro toks start
    show (preserveFrom (processRange toks start r).1 (processRange toks start r).2 rest).length = _
    rw [ih, processRange_length]

theorem preserveFrom_nthTok_lt (rs : List (Nat × Nat)) :
    ∀ (toks : List PreFormatToken) (start i : Nat), i < start →
    nthTok (preserveFrom toks start rs) i = nthTok toks i := by
  induction rs with
  | nil => intro toks start i _; rfl
  | cons r rest ih =>
    intro toks start i h
    show nthTok (preserveFrom (processRange toks start r).1
      (processRange toks start r).2 rest) i = _
    rw [ih _ _ _ (by have := processRange_snd_ge toks start r; omega),
      processRange_nthTok_lt _ _ _ _ h]

/-- In an ordered, non-overlapping interval list, the first interval ends at
or before the start of any later interval. -/
theorem chain_head_le (r0 : Nat × Nat) (rest : List (Nat × Nat)) (r : Nat × Nat)
    (hr : r ∈ rest)
    (hch : List.Chain' (fun a b : Nat × Nat => a.2 ≤ b.1) (r0 :: rest))
    (hwf : ∀ x ∈ r0 :: rest, x.1 ≤ x.2) : r0.2 ≤ r.1 := by
  induction rest generalizing r0 with
  | nil => simp at hr
  | cons r1 rest ih =>
    have h01 : r0.2 ≤ r1.1 := (List.chain'_cons.mp hch).1
    rcases List.mem_cons.mp hr with hr1 | hr2
    · rw [hr1]; exact h01
    · have h1 : r1.2 ≤ r.1 :=
        ih r1 hr2 (List.chain'_cons.mp hch).2 (fun x hx => hwf x (by simp [hx]))
      have h2 : r1.1 ≤ r1.2 := hwf r1 (by simp)
      omega

/-- The central marking property of PreserveSpacesOnDisabledTokenRanges:
given the token-stream invariants (monotone, non-overlapping byte ranges)
and the disabled-range-set invariants (sorted, non-overlapping intervals),
every token whose byte span is contained in one of the ranges ends with
break_decision Preserve, whatever its break decision was before. -/
theorem preserveFrom_marks (ranges : List (Nat × Nat)) :
    ∀ (toks : List PreFormatToken) (start i : Nat) (r : Nat × Nat),
    start ≤ toks.length → start ≤ i → i < toks.length →
    (∀ j, j < toks.length → ∀ k, k < j →
      (nthTok toks k).right ≤ (nthTok toks j).right) →
    (∀ j, j < toks.length → (nthTok toks j).left < (nthTok toks j).right) →
    List.Chain' (fun a b : Nat × Nat => a.2 ≤ b.1) ranges →
    (∀ x ∈ ranges, x.1 ≤ x.2) →
    r ∈ ranges →
    r.1 ≤ (nthTok toks i).left → (nthTok toks i).right ≤ r.2 →
    (nthTok (preserveFrom toks start ranges) i).before.break_decision =
      .preserve := by
  induction ranges with
  | nil =>
    intro toks start i r _ _ _ _ _ _ _ hr _ _
    simp at hr
  | cons r0 rest ih =>
    intro toks start i r hsl hsi hil hmono hpos hch hwf hr hlo hhi
    rcases List.mem_cons.mp hr with hr0 | hrrest
    · subst hr0
      have hb_le : findIdxFrom (fun t => decide (r.1 ≤ t.left)) toks start ≤ i :=
        findIdxFrom_le_of_pred _ _ _ _ hsi hil (by simpa using hlo)
      have he_gt : i < (processRange toks start r).2 := by
        rw [processRange_snd]
        apply lt_findIdxFrom _ _ _ _ hil
        intro j _ hji
        simp only [decide_eq_false_iff_not, not_lt]
        by_cases hj : j = i
        · rw [hj]; exact hhi
        · exact Nat.le_trans (hmono i hil j (Nat.lt_of_le_of_ne hji hj)) hhi
      show (nthTok (preserveFrom (processRange toks start r).1
        (processRange toks start r).2 rest) i).before.break_decision = _
      rw [preserveFrom_nthTok_lt rest _ _ i he_gt]
      exact processRange_bd_marks toks start i r hil hb_le he_gt
    · have hwf0 : r0.1 ≤ r0.2 := hwf r0 (List.mem_cons_self r0 rest)
      have hchainle : r0.2 ≤ r.1 := chain_head_le r0 rest r hrrest hch hwf
      have hb_le : findIdxFrom (fun t => decide (r0.1 ≤ t.left)) toks start ≤ i :=
        findIdxFrom_le_of_pred _ _ _ _ hsi hil (by
          simp only [decide_eq_true_eq]
          omega)
      have he_le : (processRange toks start r0).2 ≤ i := by
        rw [processRange_snd]
        apply findIdxFrom_le_of_pred _ _ _ _ hb_le hil
        simp only [decide_eq_true_eq]
        have := hpos i hil
        omega
      show (nthTok (preserveFrom (processRange toks start r0).1
        (processRange toks start r0).2 rest) i).before.break_decision = _
      apply ih (processRange toks start r0).1 (processRange toks start r0).2 i r
      · rw [processRange_length]; exact processRange_snd_le toks start r0 hsl
      · exact he_le
      · rw [processRange_length]; exact hil
      · intro j hj k hk
        rw [processRange_right, processRange_right]
        exact hmono j (by rwa [processRange_length] at hj) k hk
      · intro j hj
        rw [processRange_left, processRange_right]
        exact hpos j (by rwa [processRange_length] at hj)
      · exact hch.tail
      · intro x hx
        exact hwf x (List.mem_cons_of_mem _ hx)
      · exact hrrest
      · rw [processRange_left]; exact hlo
      · rw [processRange_right]; exact hhi

/-- The kludge of PreserveSpacesOnDisabledTokenRanges, at the iteration
processing range `r` from search state `start`: when the disabled token
range `[b, e)` is nonempty, does not start at the first token, and is
immediately preceded by an EOL comment, the first disabled token's
preserved_space_start is advanced by exactly one. -/
theorem preserveFrom_kludge (toks : List PreFormatToken) (start : Nat)
    (r : Nat × Nat) (rest : List (Nat × Nat)) (hsl : start ≤ toks.length)
    (hb0 : findIdxFrom (fun t => decide (r.1 ≤ t.left)) toks start ≠ 0)
    (hbe : findIdxFrom (fun t => decide (r.1 ≤ t.left)) toks start ≠
      (processRange toks start r).2)
    (hprev : (nthTok toks
      ((findIdxFrom (fun t => decide (r.1 ≤ t.left)) toks start) - 1)).token_enum
        = .TK_EOL_COMMENT) :
    (nthTok (preserveFrom toks start (r :: rest))
        (findIdxFrom (fun t => decide (r.1 ≤ t.left)) toks start)).before.preserved_space_start =
      (nthTok toks
        (findIdxFrom (fun t => decide (r.1 ≤ t.left)) toks start)).before.preserved_space_start
        + 1 := by
  set b := findIdxFrom (fun t => decide (r.1 ≤ t.left)) toks start with hbdef
  have hbe' : b ≤ (processRange toks start r).2 := by
    rw [processRange_snd]
    exact findIdxFrom_ge _ _ _
  have hblt : b < (processRange toks start r).2 := Nat.lt_of_le_of_ne hbe' hbe
  have hble : b ≤ toks.length := findIdxFrom_le_length _ _ _ hsl
  have hbl : b < toks.length := by
    have := processRange_snd_le toks start r hsl
    omega
  show (nthTok (preserveFrom (processRange toks start r).1
    (processRange toks start r).2 rest) b).before.preserved_space_start = _
  rw [preserveFrom_nthTok_lt rest _ _ b hblt]
  rw [processRange_fst,
    if_pos (by
      refine ⟨hb0, hbe, ?_⟩
      rw [markPreserve_enum]
      exact hprev)]
  rw [bumpPS_ps_at _ _ (by unfold markPreserve; rw [mapIdxFrom_length]; exact hbl),
    markPreserve_ps]

/-! ## Helper lemmas: statuses and verification -/

theorem formatterStatus_code (tree : PTree)
    (search : UnwrappedLineM → FormattedExcerpt × List FormattedExcerpt)
    (control : ExecutionControl) :
    (FormatterStatus tree search control).code = .ok ∨
    (FormatterStatus tree search control).code = .resourceExhausted := by
  unfold FormatterStatus okStatus
  split
  · left; rfl
  · split
    · right; rfl
    · left; rfl

theorem verifyFormatting_ok_equiv (a : AnalyzeResult) (d : DiffStatus)
    (h : (VerifyFormatting a d).code = .ok) : d = .kEquivalent := by
  unfold VerifyFormatting okStatus at h
  by_cases hd : d = .kEquivalent
  · exact hd
  · exfalso
    by_cases h2 : (a.lexOk = false ∨ a.parseOk = false) ∧
        a.tokenErrorMessages ≠ []
    · rw [if_pos h2] at h
      simp at h
    · rw [if_neg h2, if_pos hd] at h
      simp at h

/-! ## Claims -/

/-- C2 (amended): for every token whose byte span is contained in some
interval of the disabled-range set (token.left at or after the interval's
lo and token.right at or before its hi), after the disabled-range resolver
runs that token's break_decision is preserve-original; preserve-original
wins even when the annotator had assigned must-wrap (no hypothesis
constrains the prior break decision).  Hypotheses are the documented
invariants: token byte ranges are nonempty and monotone, and the
disabled-range set is sorted and non-overlapping.  Tokens that merely start
inside an interval but extend beyond its hi are not selected by the binary
search and keep their prior decision (see the counterexample). -/
theorem claim_C2 (toks : List PreFormatToken) (ranges : List (Nat × Nat))
    (i : Nat) (r : Nat × Nat)
    (hmono : ∀ j, j < toks.length → ∀ k, k < j →
      (nthTok toks k).right ≤ (nthTok toks j).right)
    (hpos : ∀ j, j < toks.length → (nthTok toks j).left < (nthTok toks j).right)
    (hch : List.Chain' (fun a b : Nat × Nat => a.2 ≤ b.1) ranges)
    (hwf : ∀ x ∈ ranges, x.1 ≤ x.2)
    (hr : r ∈ ranges) (hil : i < toks.length)
    (hlo : r.1 ≤ (nthTok toks i).left) (hhi : (nthTok toks i).right ≤ r.2) :
    (nthTok (PreserveSpacesOnDisabledTokenRanges toks ranges) i).before.break_decision
      = .preserve :=
  preserveFrom_marks ranges toks 0 i r (Nat.zero_le _) (Nat.zero_le _) hil
    hmono hpos hch hwf hr hlo hhi

/-- C2 counterexample: a token whose starting byte offset (left = 2) lies
inside the disabled interval [2, 5) but whose span extends past the
interval's end (right = 9) is not selected by the binary search
(upper_bound excludes it), so its must-wrap decision survives the resolver,
contradicting the claim that any token with lo inside an interval gets
preserve-original. -/
theorem claim_C2_counterexample :
    2 ≤ (nthTok [⟨.tk 5, 2, 9, ⟨.mustWrap, 0⟩⟩] 0).left ∧
    (nthTok [⟨.tk 5, 2, 9, ⟨.mustWrap, 0⟩⟩] 0).left < 5 ∧
    (nthTok (PreserveSpacesOnDisabledTokenRanges
        [⟨.tk 5, 2, 9, ⟨.mustWrap, 0⟩⟩] [(2, 5)]) 0).before.break_decision
      = .mustWrap := by
  decide

/-- C2 witness: a fully contained token that the annotator marked
must-wrap is re-marked preserve-original by the resolver. -/
theorem claim_C2_witness :
    (nthTok (PreserveSpacesOnDisabledTokenRanges
        [⟨.tk 1, 0, 2, ⟨.undecided, 0⟩⟩, ⟨.tk 2, 3, 6, ⟨.mustWrap, 0⟩⟩]
        [(3, 6)]) 1).before.break_decision = .preserve :=
  claim_C2 [⟨.tk 1, 0, 2, ⟨.undecided, 0⟩⟩, ⟨.tk 2, 3, 6, ⟨.mustWrap, 0⟩⟩]
    [(3, 6)] 1 (3, 6) (by decide) (by decide) (List.chain'_singleton _)
    (by decide) (by decide) (by decide) (by decide) (by decide)

/-- C9: at the loop iteration of the disabled-range resolver that processes
range `r` from search state `start` (the whole resolver is the instance
start = 0 for the first range, and every later iteration has exactly this
shape), if the range selects at least one token (b different from e), its
first token is not the first token of the sequence (b nonzero), and the
token just before it is an end-of-line comment, then that first token's
preserved_space_start is advanced by exactly one byte past the comment's
trailing newline. -/
theorem claim_C9 (toks : List PreFormatToken) (start : Nat)
    (r : Nat × Nat) (rest : List (Nat × Nat)) (hsl : start ≤ toks.length)
    (hb0 : findIdxFrom (fun t => decide (r.1 ≤ t.left)) toks start ≠ 0)
    (hbe : findIdxFrom (fun t => decide (r.1 ≤ t.left)) toks start ≠
      (processRange toks start r).2)
    (hprev : (nthTok toks
      ((findIdxFrom (fun t => decide (r.1 ≤ t.left)) toks start) - 1)).token_enum
        = .TK_EOL_COMMENT) :
    (nthTok (preserveFrom toks start (r :: rest))
        (findIdxFrom (fun t => decide (r.1 ≤ t.left)) toks start)).before.preserved_space_start
      = (nthTok toks
          (findIdxFrom (fun t => decide (r.1 ≤ t.left)) toks start)).before.preserved_space_start
        + 1 :=
  preserveFrom_kludge toks start r rest hsl hb0 hbe hprev

/-- C9 witness: a disabled range starting right after an EOL comment; the
first disabled token's preserved_space_start advances from 5 to 6. -/
theorem claim_C9_witness :
    (nthTok (preserveFrom
        [⟨.TK_EOL_COMMENT, 0, 4, ⟨.undecided, 0⟩⟩, ⟨.tk 3, 5, 8, ⟨.undecided, 5⟩⟩]
        0 [(5, 8)])
      (findIdxFrom (fun t => decide ((5, 8).1 ≤ t.left))
        [⟨.TK_EOL_COMMENT, 0, 4, ⟨.undecided, 0⟩⟩, ⟨.tk 3, 5, 8, ⟨.undecided, 5⟩⟩]
        0)).before.preserved_space_start
    = (nthTok
        [⟨.TK_EOL_COMMENT, 0, 4, ⟨.undecided, 0⟩⟩, ⟨.tk 3, 5, 8, ⟨.undecided, 5⟩⟩]
        (findIdxFrom (fun t => decide ((5, 8).1 ≤ t.left))
          [⟨.TK_EOL_COMMENT, 0, 4, ⟨.undecided, 0⟩⟩, ⟨.tk 3, 5, 8, ⟨.undecided, 5⟩⟩]
          0)).before.preserved_space_start + 1 :=
  claim_C9 [⟨.TK_EOL_COMMENT, 0, 4, ⟨.undecided, 0⟩⟩, ⟨.tk 3, 5, 8, ⟨.undecided, 5⟩⟩]
    0 (5, 8) [] (by decide) (by decide) (by decide) (by decide)

/-- C3 (amended): when format_module_port_declarations is false, for every
module with a port declaration list spanning bytes [lo, hi), the interval
added to the disabled-range set is [lo + 1, hi) — one past the start of the
port list's text (the source adds 1 so the space before the disabled region
can still be formatted), not [lo, hi). -/
theorem claim_C3 (portSpans : List (Nat × Nat)) (lo hi : Nat)
    (hmem : (lo, hi) ∈ portSpans) :
    ByteOffsetRange lo hi = (lo + 1, hi) ∧
    (lo + 1, hi) ∈ modulePortDisabledRanges false portSpans := by
  refine ⟨rfl, ?_⟩
  unfold modulePortDisabledRanges
  rw [if_neg (by simp)]
  exact List.mem_map.mpr ⟨(lo, hi), hmem, rfl⟩

/-- C3 counterexample: a port list spanning bytes [4, 9) leads to the
disabled interval (5, 9), and the claimed interval (4, 9) is not in the
disabled-range additions. -/
theorem claim_C3_counterexample :
    modulePortDisabledRanges false [(4, 9)] = [(5, 9)] ∧
    (4, 9) ∉ modulePortDisabledRanges false [(4, 9)] := by
  decide

/-- C3 witness: instantiation at the span [4, 9). -/
theorem claim_C3_witness :
    ByteOffsetRange 4 9 = (5, 9) ∧
    (5, 9) ∈ modulePortDisabledRanges false [(4, 9)] :=
  claim_C3 [(4, 9)] 4 9 (by decide)

/-- C5 (amended): in the post-order expansion pass (starting from the
fully-expanded view), for every node of the tree (each node is the root of
its subtree, and the pass maps the children to the recursively processed
subtrees, so this root-level statement covers every node): a leaf ends
unexpanded; a node with at least one expanded child ends expanded
regardless of its policy; otherwise a non-leaf AlwaysExpand node ends
expanded — with two or more children it is expanded explicitly, and with
exactly one child it retains the view's initial fully-expanded state (it is
not unexpanded, contrary to the claimed iff); a node with
FitOnLineElseExpand or AppendFittingSubPartitions policy is expanded iff
its single-line rendering does not fit within the column limit. -/
theorem claim_C5 (uw : UnwrappedLineM) (cs : List PTree) :
    (applyExpansion (mkView (PTree.node uw cs))).childrenOf
        = applyExpansionList (mkViewList cs) ∧
    (cs = [] → (applyExpansion (mkView (PTree.node uw cs))).rootExpanded = false) ∧
    (applyExpansionList (mkViewList cs) ≠ [] →
      (((applyExpansionList (mkViewList cs)).any ViewTree.rootExpanded = true →
          (applyExpansion (mkView (PTree.node uw cs))).rootExpanded = true) ∧
       ((applyExpansionList (mkViewList cs)).any ViewTree.rootExpanded = false →
         ((uw.policy = .kAlwaysExpand →
             (applyExpansion (mkView (PTree.node uw cs))).rootExpanded = true) ∧
          (uw.policy = .kFitOnLineElseExpand ∨
             uw.policy = .kAppendFittingSubPartitions →
             (applyExpansion (mkView (PTree.node uw cs))).rootExpanded
               = !uw.fitsOnLine))))) := by
  have hroot : applyExpansion (mkView (PTree.node uw cs)) =
      ViewTree.node
        ⟨uw, DeterminePartitionExpansion true uw (applyExpansionList (mkViewList cs))⟩
        (applyExpansionList (mkViewList cs)) := rfl
  rw [hroot]
  refine ⟨rfl, ?_, ?_⟩
  · intro h
    subst h
    rfl
  · intro hne
    cases hL : applyExpansionList (mkViewList cs) with
    | nil => exact absurd hL hne
    | cons c cs2 =>
      simp only [ViewTree.rootExpanded]
      constructor
      · intro hany
        unfold DeterminePartitionExpansion
        simp [hany]
      · intro hany
        unfold DeterminePartitionExpansion
        simp [hany]
        constructor
        · intro hp
          rw [hp]
        · intro hp
          rcases hp with hp | hp <;> rw [hp]

/-- C5 counterexample: an AlwaysExpand node with exactly one (unexpanded
leaf) child and no expanded child ends the pass expanded — the switch case
does nothing for fewer than two children, so the node keeps the view's
initial fully-expanded state — contradicting the claimed "expanded iff at
least 2 children". -/
theorem claim_C5_counterexample :
    (applyExpansion (mkView (PTree.node ⟨.kAlwaysExpand, true, false, 0⟩
        [PTree.node ⟨.kUninitialized, true, false, 1⟩ []]))).rootExpanded = true ∧
    (applyExpansion (mkView (PTree.node ⟨.kAlwaysExpand, true, false, 0⟩
        [PTree.node ⟨.kUninitialized, true, false, 1⟩ []]))).childrenOf.length = 1 ∧
    (applyExpansion (mkView (PTree.node ⟨.kAlwaysExpand, true, false, 0⟩
        [PTree.node ⟨.kUninitialized, true, false, 1⟩ []]))).childrenOf.any
        ViewTree.rootExpanded = false := by
  decide

/-- C5 witness: a FitOnLineElseExpand node whose line does not fit, with a
single leaf child, becomes expanded. -/
theorem claim_C5_witness :
    (applyExpansion (mkView (PTree.node ⟨.kFitOnLineElseExpand, false, false, 0⟩
        [PTree.node ⟨.kUninitialized, true, false, 1⟩ []]))).rootExpanded
      = !(false : Bool) :=
  (((claim_C5 ⟨.kFitOnLineElseExpand, false, false, 0⟩
      [PTree.node ⟨.kUninitialized, true, false, 1⟩ []]).2.2
    (List.cons_ne_nil _ _)).2 (by decide)).2 (Or.inl rfl)

/-- C6 (amended): for every formatted output whose re-lexing or re-parsing
fails and for which the re-analyzer reports at least one token error
message, the verifier returns DataLoss carrying the first token error
message.  (When the token error list is empty, the source falls through to
the lexical-equivalence comparison instead of returning DataLoss — see the
counterexample.) -/
theorem claim_C6 (re : AnalyzeResult) (equiv : DiffStatus)
    (hfail : re.lexOk = false ∨ re.parseOk = false)
    (herr : re.tokenErrorMessages ≠ []) :
    VerifyFormatting re equiv =
      ⟨.dataLoss,
       "Error lex/parsing-ing formatted output.  Please file a bug.\nFirst error: "
         ++ re.tokenErrorMessages.headD ""⟩ := by
  unfold VerifyFormatting
  rw [if_pos ⟨hfail, herr⟩]

/-- C6 counterexample: a re-analysis whose lexing failed but whose token
error message list is empty does not produce DataLoss; with equivalent
token streams the verifier returns OK, contradicting the claim that any
re-lex/parse failure yields DataLoss. -/
theorem claim_C6_counterexample :
    (VerifyFormatting ⟨false, true, [], []⟩ .kEquivalent).code = .ok ∧
    (⟨false, true, [], []⟩ : AnalyzeResult).lexOk = false := by
  decide

/-- C6 witness: a failed re-lex with one token error message produces
DataLoss carrying that message. -/
theorem claim_C6_witness :
    VerifyFormatting ⟨false, true, [], ["token error at 1:1"]⟩ .kEquivalent =
      ⟨.dataLoss,
       "Error lex/parsing-ing formatted output.  Please file a bug.\nFirst error: "
         ++ (["token error at 1:1"] : List String).headD ""⟩ :=
  claim_C6 ⟨false, true, [], ["token error at 1:1"]⟩ .kEquivalent
    (Or.inl rfl) (by decide)

/-- C1: for every input and environment, if FormatVerilog returns DataLoss
then nothing was committed to the output stream, and every text committed
to the output stream passed verification — its filtered token stream is
equivalent to the input's (FormatEquivalent returned kEquivalent) and the
verifier returned OK on it before it was written. -/
theorem claim_C1 (env : FormatterEnv) (text : String)
    (control : ExecutionControl) :
    ((FormatVerilog env text control).status.code = .dataLoss →
      (FormatVerilog env text control).output = []) ∧
    (∀ t, t ∈ (FormatVerilog env text control).output →
      env.formatEquivalent text t = .kEquivalent ∧
      (VerifyFormatting (env.analyze t) (env.formatEquivalent text t)).code
        = .ok) := by
  simp only [FormatVerilog]
  by_cases h1 : (env.analyze text).lexOk = true ∧ (env.analyze text).parseOk = true
  · rw [if_pos h1]
    by_cases h2 : (FormatterStatus env.tree env.search control).code ≠ .ok ∧
        (FormatterStatus env.tree env.search control).code ≠ .resourceExhausted
    · rw [if_pos h2]
      exact ⟨fun _ => rfl, fun t ht => absurd ht (List.not_mem_nil t)⟩
    · rw [if_neg h2]
      by_cases h3 : control.any_stop = true
      · rw [if_pos h3]
        exact ⟨fun _ => rfl, fun t ht => absurd ht (List.not_mem_nil t)⟩
      · rw [if_neg h3]
        by_cases h4 : (VerifyFormatting
            (env.analyze (env.emit (FormatterFormattedLines env.tree env.search control)))
            (env.formatEquivalent text
              (env.emit (FormatterFormattedLines env.tree env.search control)))).code ≠ .ok
        · rw [if_pos h4]
          exact ⟨fun _ => rfl, fun t ht => absurd ht (List.not_mem_nil t)⟩
        · rw [if_neg h4]
          push_neg at h4
          constructor
          · intro hdl
            exfalso
            rcases formatterStatus_code env.tree env.search control with ho | ho <;>
              rw [ho] at hdl <;> exact StatusCode.noConfusion hdl
          · intro t ht
            rcases List.mem_singleton.mp ht with rfl
            exact ⟨verifyFormatting_ok_equiv _ _ h4, h4⟩
  · rw [if_neg h1]
    exact ⟨fun _ => rfl, fun t ht => absurd ht (List.not_mem_nil t)⟩

/-- C1 witness: on a healthy environment the committed text is verified
equivalent to the input. -/
theorem claim_C1_witness :
    exampleEnv.formatEquivalent "module m;endmodule" "formatted output"
      = .kEquivalent ∧
    (VerifyFormatting (exampleEnv.analyze "formatted output")
      (exampleEnv.formatEquivalent "module m;endmodule" "formatted output")).code
      = .ok :=
  (claim_C1 exampleEnv "module m;endmodule" exampleControl).2
    "formatted output" (by decide)

/-- C4: when the input lexes and parses, no diagnostic stop is requested,
at least one worklist line's chosen solution did not complete within the
search budget, and verification succeeds, then: every unwrapped line of the
worklist still receives a formatted excerpt (the first solution of its own
search, best-effort for exhausted ones — one line's failure does not abort
the others), the engine still emits, verifies and commits the formatted
text, and the returned status is ResourceExhausted. -/
theorem claim_C4 (env : FormatterEnv) (text : String)
    (control : ExecutionControl)
    (hlex : (env.analyze text).lexOk = true)
    (hparse : (env.analyze text).parseOk = true)
    (hstop : control.any_stop = false)
    (hexh : ∃ uw ∈ MakeUnwrappedLinesWorklist env.tree,
      (env.search uw).1.completed = false)
    (hverify : (VerifyFormatting
        (env.analyze (env.emit (FormatterFormattedLines env.tree env.search control)))
        (env.formatEquivalent text
          (env.emit (FormatterFormattedLines env.tree env.search control)))).code
      = .ok) :
    FormatterFormattedLines env.tree env.search control =
      (MakeUnwrappedLinesWorklist env.tree).map (fun uw => (env.search uw).1) ∧
    (FormatterStatus env.tree env.search control).code = .resourceExhausted ∧
    (FormatVerilog env text control).status.code = .resourceExhausted ∧
    (FormatVerilog env text control).output =
      [env.emit (FormatterFormattedLines env.tree env.search control)] := by
  have hlines : FormatterFormattedLines env.tree env.search control =
      (MakeUnwrappedLinesWorklist env.tree).map (fun uw => (env.search uw).1) := by
    unfold FormatterFormattedLines
    rw [if_neg (by simp [hstop])]
  have hany : (FormatterFormattedLines env.tree env.search control).any
      (fun e => e.completed = false) = true := by
    rw [hlines]
    rcases hexh with ⟨uw, hmem, hcomp⟩
    exact List.any_eq_true.mpr
      ⟨(env.search uw).1, List.mem_map_of_mem _ hmem, by simp [hcomp]⟩
  have hst : (FormatterStatus env.tree env.search control).code
      = .resourceExhausted := by
    unfold FormatterStatus
    rw [if_neg (by simp [hstop]), if_pos hany]
  refine ⟨hlines, hst, ?_⟩
  simp only [FormatVerilog]
  rw [if_pos ⟨hlex, hparse⟩, if_neg (fun h => h.2 hst),
    if_neg (by simp [hstop]), if_neg (by simp [hverify])]
  exact ⟨hst, rfl⟩

/-- C4 witness: a single-line worklist whose search is exhausted still
produces a committed best-effort output and ResourceExhausted. -/
theorem claim_C4_witness :
    (FormatVerilog exhaustedEnv "assign x = y;" exampleControl).status.code
      = .resourceExhausted ∧
    (FormatVerilog exhaustedEnv "assign x = y;" exampleControl).output
      = [exhaustedEnv.emit
          (FormatterFormattedLines exhaustedEnv.tree exhaustedEnv.search
            exampleControl)] :=
  ⟨(claim_C4 exhaustedEnv "assign x = y;" exampleControl rfl rfl rfl
      ⟨⟨.kUninitialized, true, false, 0⟩, by decide, by decide⟩
      (by decide)).2.2.1,
   (claim_C4 exhaustedEnv "assign x = y;" exampleControl rfl rfl rfl
      ⟨⟨.kUninitialized, true, false, 0⟩, by decide, by decide⟩
      (by decide)).2.2.2⟩

/-- C7: when the input lexes and parses and a diagnostic stop is requested
(any_stop), FormatVerilog returns Cancelled, commits nothing to the output
stream, the wrap-search loop never runs (no formatted lines are produced),
and the requested diagnostics are emitted to the execution-control
stream. -/
theorem claim_C7 (env : FormatterEnv) (text : String)
    (control : ExecutionControl)
    (hlex : (env.analyze text).lexOk = true)
    (hparse : (env.analyze text).parseOk = true)
    (hstop : control.any_stop = true) :
    (FormatVerilog env text control).status.code = .cancelled ∧
    (FormatVerilog env text control).output = [] ∧
    FormatterFormattedLines env.tree env.search control = [] ∧
    (FormatVerilog env text control).controlWrites = diagnosticWrites control ∧
    (control.show_token_partition_tree = true →
      (control.Stream, DiagMsg.treeDump)
        ∈ (FormatVerilog env text control).controlWrites) ∧
    (control.show_largest_token_partitions ≠ 0 →
      (control.Stream, DiagMsg.largestPartitions)
        ∈ (FormatVerilog env text control).controlWrites) := by
  have hfs : FormatterStatus env.tree env.search control = okStatus := by
    unfold FormatterStatus
    rw [if_pos hstop]
  have hfl : FormatterFormattedLines env.tree env.search control = [] := by
    unfold FormatterFormattedLines
    rw [if_pos hstop]
  have hfd : FormatterDiagnostics env.tree env.search control
      = diagnosticWrites control := by
    unfold FormatterDiagnostics
    rw [if_pos hstop, List.append_nil]
  simp only [FormatVerilog]
  rw [if_pos ⟨hlex, hparse⟩, if_neg (by rw [hfs]; simp [okStatus]),
    if_pos hstop]
  refine ⟨rfl, rfl, hfl, hfd, ?_, ?_⟩
  · intro hshow
    rw [hfd]
    unfold diagnosticWrites
    rw [if_pos hshow]
    exact List.mem_append_left _ (List.mem_singleton.mpr rfl)
  · intro hshow
    rw [hfd]
    unfold diagnosticWrites
    rw [if_pos hshow]
    exact List.mem_append_right _ (List.mem_singleton.mpr rfl)

/-- C7 witness: with any_stop and the partition-tree dump requested, the
run is cancelled and the dump goes to the caller-supplied stream. -/
theorem claim_C7_witness :
    (FormatVerilog exampleEnv "module m;endmodule" stopControl).status.code
      = .cancelled ∧
    (FormatVerilog exampleEnv "module m;endmodule" stopControl).output = [] ∧
    (stopControl.Stream, DiagMsg.treeDump)
      ∈ (FormatVerilog exampleEnv "module m;endmodule" stopControl).controlWrites :=
  ⟨(claim_C7 exampleEnv "module m;endmodule" stopControl rfl rfl rfl).1,
   (claim_C7 exampleEnv "module m;endmodule" stopControl rfl rfl rfl).2.1,
   (claim_C7 exampleEnv "module m;endmodule" stopControl rfl rfl rfl).2.2.2.2.1
     rfl⟩

/-- C8: formatting is deterministic and depends only on the first optimal
solution of each line's wrap search: two environments that agree on the
analyzer, the comparator, the partition tree and the emitter, and whose
search oracles agree on the first solution of every line (their further
equally-optimal solutions may differ), produce the same status and the
same committed output for the same input text and execution control. -/
theorem claim_C8 (env1 env2 : FormatterEnv) (text : String)
    (control : ExecutionControl)
    (hanalyze : env1.analyze = env2.analyze)
    (hequiv : env1.formatEquivalent = env2.formatEquivalent)
    (htree : env1.tree = env2.tree)
    (hemit : env1.emit = env2.emit)
    (hsearch : ∀ uw, (env1.search uw).1 = (env2.search uw).1) :
    (FormatVerilog env1 text control).status
      = (FormatVerilog env2 text control).status ∧
    (FormatVerilog env1 text control).output
      = (FormatVerilog env2 text control).output := by
  obtain ⟨a1, q1, t1, s1, m1⟩ := env1
  obtain ⟨a2, q2, t2, s2, m2⟩ := env2
  simp only at hanalyze hequiv htree hemit hsearch
  subst hanalyze
  subst hequiv
  subst htree
  subst hemit
  have hlines : FormatterFormattedLines t1 s1 control
      = FormatterFormattedLines t1 s2 control := by
    unfold FormatterFormattedLines
    by_cases hs : control.any_stop = true
    · rw [if_pos hs, if_pos hs]
    · rw [if_neg hs, if_neg hs]
      exact List.map_congr_left (fun uw _ => hsearch uw)
  have hstat : FormatterStatus t1 s1 control = FormatterStatus t1 s2 control := by
    unfold FormatterStatus
    rw [hlines]
  simp only [FormatVerilog]
  rw [hstat, hlines]
  by_cases h1 : (a1 text).lexOk = true ∧ (a1 text).parseOk = true
  · rw [if_pos h1, if_pos h1]
    by_cases h2 : (FormatterStatus t1 s2 control).code ≠ .ok ∧
        (FormatterStatus t1 s2 control).code ≠ .resourceExhausted
    · rw [if_pos h2, if_pos h2]
      exact ⟨rfl, rfl⟩
    · rw [if_neg h2, if_neg h2]
      by_cases h3 : control.any_stop = true
      · rw [if_pos h3, if_pos h3]
        exact ⟨rfl, rfl⟩
      · rw [if_neg h3, if_neg h3]
        by_cases h4 : (VerifyFormatting
            (a1 (m1 (FormatterFormattedLines t1 s2 control)))
            (q1 text (m1 (FormatterFormattedLines t1 s2 control)))).code ≠ .ok
        · rw [if_pos h4, if_pos h4]
          exact ⟨rfl, rfl⟩
        · rw [if_neg h4, if_neg h4]
          exact ⟨rfl, rfl⟩
  · rw [if_neg h1, if_neg h1]
    exact ⟨rfl, rfl⟩

/-- C8 witness: two environments whose searches agree on the first optimal
solution but return different numbers of equally optimal alternatives
produce identical committed output. -/
theorem claim_C8_witness :
    (FormatVerilog envFirstOnly "wire w;" exampleControl).output
      = (FormatVerilog envFirstOfTwo "wire w;" exampleControl).output :=
  (claim_C8 envFirstOnly envFirstOfTwo "wire w;" exampleControl
    rfl rfl rfl rfl (fun _ => rfl)).2

/-- C10: when the execution control's diagnostic stream pointer is null,
ExecutionControl::Stream() returns std::cout, so every diagnostic written
by Formatter::Format goes to the process-wide standard output rather than
a caller-supplied stream. -/
theorem claim_C10 (control : ExecutionControl) (h : control.stream = none) :
    control.Stream = .stdout ∧
    (∀ (tree : PTree)
      (search : UnwrappedLineM → FormattedExcerpt × List FormattedExcerpt),
      ∀ w ∈ FormatterDiagnostics tree search control, w.1 = .stdout) := by
  have hs : control.Stream = .stdout := by
    unfold ExecutionControl.Stream
    rw [h]
  refine ⟨hs, ?_⟩
  intro tree search w hw
  unfold FormatterDiagnostics diagnosticWrites equallyOptimalWrites at hw
  rcases List.mem_append.mp hw with hw | hw
  · rcases List.mem_append.mp hw with hw | hw
    · by_cases hc : control.show_token_partition_tree = true
      · rw [if_pos hc] at hw
        rcases List.mem_singleton.mp hw with rfl
        exact hs
      · rw [if_neg hc] at hw
        exact absurd hw (List.not_mem_nil w)
    · by_cases hc : control.show_largest_token_partitions ≠ 0
      · rw [if_pos hc] at hw
        rcases List.mem_singleton.mp hw with rfl
        exact hs
      · rw [if_neg hc] at hw
        exact absurd hw (List.not_mem_nil w)
  · by_cases hc : control.any_stop = true
    · rw [if_pos hc] at hw
      exact absurd hw (List.not_mem_nil w)
    · rw [if_neg hc] at hw
      rcases List.mem_filterMap.mp hw with ⟨uw, _, huw⟩
      by_cases hopt : control.show_equally_optimal_wrappings = true ∧
          (search uw).2 ≠ []
      · rw [if_pos hopt] at huw
        rcases Option.some.injEq _ _ ▸ huw with rfl
        exact hs
      · rw [if_neg hopt] at huw
        exact absurd huw (Option.noConfusion)

/-- C10 witness: a null stream pointer routes Stream() to standard
output. -/
theorem claim_C10_witness :
    ExecutionControl.Stream ⟨1, true, 0, false, none, true⟩ = .stdout :=
  (claim_C10 ⟨1, true, 0, false, none, true⟩ rfl).1

end Verible


